import Mathlib

/-!
Verification development for the open-os-cli AI-assisted command-suggestion
session engine.  The definitions below are a shallow embedding of the
TypeScript source: `src/frontend/renderer.ts` (response parser, per-tab inline
session state machine, approval workflow, prompt history) and the Electron main
process (per-tab conversation ledger inside `queryOllama`).

JavaScript string primitives (`trim`, `trimStart`, `split`, `startsWith`,
`slice`, `replace`, `toLowerCase`, `repeat`) and `JSON.parse` are modelled
explicitly over `List Char` so that every definition is executable by the
kernel (structural or fuel-based recursion throughout, no well-founded
recursion on the evaluation paths used by witnesses).
-/

/-! ## JavaScript string primitives -/

/-- The WhiteSpace / LineTerminator set used by JS `trim`, `trimStart` and
by the `\s` / `\S` character classes (ASCII part plus the Unicode space
separators, NBSP, BOM and the line separators). -/
def jsWhite (c : Char) : Bool :=
  let n := c.toNat
  (9 ≤ n && n ≤ 13) || n = 32 || n = 160 || n = 5760 ||
  (8192 ≤ n && n ≤ 8202) || n = 8232 || n = 8233 || n = 8239 || n = 8287 ||
  n = 12288 || n = 65279

/-- JS `String.prototype.trimStart` on a character list. -/
def jsTrimStartL (cs : List Char) : List Char := cs.dropWhile jsWhite

/-- JS `String.prototype.trim` on a character list. -/
def jsTrimL (cs : List Char) : List Char :=
  ((cs.dropWhile jsWhite).reverse.dropWhile jsWhite).reverse

/-- JS `String.prototype.trim`. -/
def jsTrim (s : String) : String := ⟨jsTrimL s.data⟩

/-- Test that `pat` is a leading run of `cs` (JS `String.prototype.startsWith`). -/
def leadsWith : List Char → List Char → Bool
  | [], _ => true
  | _ :: _, [] => false
  | p :: ps, c :: cs => p = c && leadsWith ps cs

/-- Split a character list at every occurrence of `sep`
(JS `String.prototype.split` with a single-character separator). -/
def splitCh (sep : Char) : List Char → List (List Char)
  | [] => [[]]
  | c :: cs =>
    if c = sep then [] :: splitCh sep cs
    else match splitCh sep cs with
      | [] => [[c]]
      | g :: gs => (c :: g) :: gs

/-- JS `String.prototype.repeat`. -/
def strRepeat (s : String) (n : Nat) : String := ⟨(List.replicate n s.data).flatten⟩

/-- A run of `n` copies of character `c`. -/
def charRepeat (c : Char) (n : Nat) : String := ⟨List.replicate n c⟩

/-- ASCII lowercase of one character (the only case folding the approval keys
`R`/`S`/`C`/`I` exercise in JS `toLowerCase`). -/
def lowerCh (c : Char) : Char :=
  if 65 ≤ c.toNat ∧ c.toNat ≤ 90 then Char.ofNat (c.toNat + 32) else c

/-- JS `String.prototype.toLowerCase` (ASCII fragment). -/
def jsToLower (s : String) : String := ⟨s.data.map lowerCh⟩

/-- JS `cmd.replace(/\n/g, '\r')`. -/
def convNl (s : String) : String :=
  ⟨s.data.map (fun c => if c = '\n' then '\r' else c)⟩

/-- JS `text.replace(/\n/g, '\r\n')`. -/
def convNlCrlf (s : String) : String :=
  ⟨s.data.flatMap (fun c => if c = '\n' then ['\r', '\n'] else [c])⟩

/-- JS `s.slice(0, -1)`. -/
def strDropLast (s : String) : String := ⟨s.data.dropLast⟩

/-- The trailing maximal run of non-whitespace characters
(the match of the regex `(\S+)$`, empty when there is none). -/
def trailingRun (cs : List Char) : List Char :=
  (cs.reverse.takeWhile (fun c => !jsWhite c)).reverse

/-- One digit character. -/
def digitCh (d : Nat) : Char := Char.ofNat (48 + d % 10)

/-- Decimal digits of a natural number (fuel-based, kernel-reducible). -/
def natStrAux : Nat → Nat → List Char
  | 0, _ => []
  | _ + 1, n => if n < 10 then [digitCh n] else natStrAux n (n / 10) ++ [digitCh (n % 10)]

/-- Decimal rendering of a natural number. -/
def natStr (n : Nat) : String := ⟨natStrAux (n + 1) n⟩

/-- Join string list with a separator (JS `Array.prototype.join`). -/
def joinSep (sep : String) : List String → String
  | [] => ""
  | [s] => s
  | s :: rest => s ++ sep ++ joinSep sep rest

/-- The backtick character (0x60), written by code point. -/
def gravAcc : Char := Char.ofNat 96

/-! ## A model of `JSON.parse` (ECMA-404 grammar)

`Json.num` keeps the numeric literal as text: the parser in the renderer
never looks inside numbers, only at their presence. -/

inductive Json where
  | null : Json
  | bool (b : Bool) : Json
  | num (lit : String) : Json
  | str (s : String) : Json
  | arr (xs : List Json) : Json
  | obj (kvs : List (String × Json)) : Json

/-- JSON insignificant whitespace. -/
def jsonWs (c : Char) : Bool := c = ' ' ∨ c = '\t' ∨ c = '\n' ∨ c = '\r'

/-- Skip JSON whitespace. -/
def skipWs (cs : List Char) : List Char := cs.dropWhile jsonWs

/-- Hex digit value. -/
def hexVal (c : Char) : Option Nat :=
  let n := c.toNat
  if 48 ≤ n ∧ n ≤ 57 then some (n - 48)
  else if 97 ≤ n ∧ n ≤ 102 then some (n - 87)
  else if 65 ≤ n ∧ n ≤ 70 then some (n - 55)
  else none

/-- Parse the body of a JSON string (after the opening quote), accumulator in
reverse.  Control characters below 0x20 are rejected, escapes are decoded;
a `\uXXXX` escape must denote a scalar value (surrogate halves rejected). -/
def pjStr : List Char → List Char → Option (List Char × List Char)
  | acc, '"' :: rest => some (acc.reverse, rest)
  | acc, '\\' :: rest =>
    match rest with
    | '"' :: r => pjStr ('"' :: acc) r
    | '\\' :: r => pjStr ('\\' :: acc) r
    | '/' :: r => pjStr ('/' :: acc) r
    | 'b' :: r => pjStr ('\x08' :: acc) r
    | 'f' :: r => pjStr ('\x0c' :: acc) r
    | 'n' :: r => pjStr ('\n' :: acc) r
    | 'r' :: r => pjStr ('\r' :: acc) r
    | 't' :: r => pjStr ('\t' :: acc) r
    | 'u' :: h1 :: h2 :: h3 :: h4 :: r =>
      match hexVal h1, hexVal h2, hexVal h3, hexVal h4 with
      | some a, some b, some c, some d =>
        let v := ((a * 16 + b) * 16 + c) * 16 + d
        if 55296 ≤ v ∧ v ≤ 57343 then none
        else pjStr (Char.ofNat v :: acc) r
      | _, _, _, _ => none
    | _ => none
  | acc, c :: rest => if c.toNat < 32 then none else pjStr (c :: acc) rest
  | _, [] => none

/-- One or more decimal digits; returns (digits, rest). -/
def pjDigits (cs : List Char) : Option (List Char × List Char) :=
  let ds := cs.takeWhile Char.isDigit
  if ds = [] then none else some (ds, cs.drop ds.length)

/-- Optional fraction and exponent of a JSON number literal. -/
def pjFrac (cs : List Char) : Option (List Char × List Char) :=
  let (fr, cs1) := match cs with
    | '.' :: r =>
      match pjDigits r with
      | some (ds, r1) => (some ('.' :: ds), r1)
      | none => (none, cs)
    | _ => (some ([] : List Char), cs)
  match fr with
  | none => none
  | some frl =>
    match cs1 with
    | e :: r =>
      if e = 'e' ∨ e = 'E' then
        let (es, r1) := match r with
          | '+' :: rr => (['+'], rr)
          | '-' :: rr => (['-'], rr)
          | _ => (([] : List Char), r)
        match pjDigits r1 with
        | some (ds, r2) => some (frl ++ [e] ++ es ++ ds, r2)
        | none => none
      else some (frl, cs1)
    | [] => some (frl, cs1)

/-- Parse a JSON number literal, returning the consumed text. -/
def pjNum (cs : List Char) : Option (List Char × List Char) :=
  let (sgn, cs1) := match cs with
    | '-' :: r => (['-'], r)
    | _ => (([] : List Char), cs)
  match cs1 with
  | '0' :: r1 =>
    (pjFrac r1).map (fun (fr, r2) => (sgn ++ ['0'] ++ fr, r2))
  | c :: _ =>
    if c.isDigit then
      match pjDigits cs1 with
      | some (ds, r1) => (pjFrac r1).map (fun (fr, r2) => (sgn ++ ds ++ fr, r2))
      | none => none
    else none
  | [] => none

mutual

/-- Parse one JSON value (fuel-based; fuel ≥ input length suffices). -/
def pjVal : Nat → List Char → Option (Json × List Char)
  | 0, _ => none
  | f + 1, cs =>
    match cs with
    | '"' :: rest => (pjStr [] rest).map (fun (s, r) => (Json.str ⟨s⟩, r))
    | '[' :: rest =>
      let rest1 := skipWs rest
      match rest1 with
      | ']' :: r => some (Json.arr [], r)
      | _ => (pjElems f rest1).map (fun (xs, r) => (Json.arr xs, r))
    | 't' :: 'r' :: 'u' :: 'e' :: r => some (Json.bool true, r)
    | 'f' :: 'a' :: 'l' :: 's' :: 'e' :: r => some (Json.bool false, r)
    | 'n' :: 'u' :: 'l' :: 'l' :: r => some (Json.null, r)
    | c :: rest =>
      if c.toNat = 123 then
        let rest1 := skipWs rest
        match rest1 with
        | c2 :: r =>
          if c2.toNat = 125 then some (Json.obj [], r)
          else (pjMembers f rest1).map (fun (kvs, r2) => (Json.obj kvs, r2))
        | [] => none
      else
        (pjNum cs).map (fun (lit, r) => (Json.num ⟨lit⟩, r))
    | [] => none

/-- Array elements: `value (ws ',' ws value)* ws ']'`. -/
def pjElems : Nat → List Char → Option (List Json × List Char)
  | 0, _ => none
  | f + 1, cs =>
    match pjVal f cs with
    | none => none
    | some (v, r1) =>
      match skipWs r1 with
      | ',' :: r2 =>
        (pjElems f (skipWs r2)).map (fun (xs, r3) => (v :: xs, r3))
      | ']' :: r2 => some ([v], r2)
      | _ => none

/-- Object members: `string ws ':' ws value (ws ',' ws …)* ws '}'`. -/
def pjMembers : Nat → List Char → Option (List (String × Json) × List Char)
  | 0, _ => none
  | f + 1, cs =>
    match cs with
    | '"' :: rest =>
      match pjStr [] rest with
      | none => none
      | some (k, r1) =>
        match skipWs r1 with
        | ':' :: r2 =>
          match pjVal f (skipWs r2) with
          | none => none
          | some (v, r3) =>
            match skipWs r3 with
            | ',' :: r4 =>
              (pjMembers f (skipWs r4)).map
                (fun (kvs, r5) => ((⟨⟨k⟩, v⟩ : String × Json) :: kvs, r5))
            | c :: r4 =>
              if c.toNat = 125 then some ([(⟨⟨k⟩, v⟩ : String × Json)], r4) else none
            | [] => none
        | _ => none
    | _ => none

end

/-- The model of JS `JSON.parse`: either a value (whole input consumed,
surrounding whitespace allowed) or failure (`JSON.parse` throwing). -/
def jsonParse (s : String) : Option Json :=
  match pjVal (s.data.length + 1) (skipWs s.data) with
  | some (j, rest) => if skipWs rest = [] then some j else none
  | none => none

/-- Property access `parsed.k` for a JSON value: own properties of parsed
objects (duplicate keys: last one wins, as in `JSON.parse`); `undefined`
(`none`) on every non-object. -/
def jsonGet (j : Json) (k : String) : Option Json :=
  match j with
  | Json.obj kvs => (kvs.filter (fun kv => kv.1 = k)).getLast?.map (·.2)
  | _ => none

/-! ## Response parser (`renderer.ts`: `extractCommands`, `parseAiResponse`)

The fenced-block tier embeds the JS regex loop
`/```\w*\n([\s\S]*?)```/g` : at each position, an opening triple of
backticks followed by a (possibly empty) run of `\w` characters and a
newline opens a block; the lazy body runs to the earliest closing triple;
scanning resumes after the match. -/

/-- The `\w` class of a JS regex without the unicode flag. -/
def isWordCh (c : Char) : Bool :=
  let n := c.toNat
  (65 ≤ n && n ≤ 90) || (97 ≤ n && n ≤ 122) || (48 ≤ n && n ≤ 57) || n = 95

/-- Split at the earliest occurrence of three consecutive backticks:
`some (before, after)` with the triple consumed, `none` if absent. -/
def findTriple : List Char → Option (List Char × List Char)
  | [] => none
  | c :: cs =>
    if c = gravAcc then
      match cs with
      | c2 :: c3 :: rest =>
        if c2 = gravAcc ∧ c3 = gravAcc then some ([], rest)
        else (findTriple cs).map (fun (a, b) => (c :: a, b))
      | _ => (findTriple cs).map (fun (a, b) => (c :: a, b))
    else (findTriple cs).map (fun (a, b) => (c :: a, b))

/-- All fenced-block bodies of the regex loop, in order, untrimmed. -/
def fencedBodiesAux : Nat → List Char → List String
  | 0, _ => []
  | f + 1, cs =>
    match cs with
    | [] => []
    | c :: cs' =>
      if c = gravAcc then
        match cs' with
        | c2 :: c3 :: rest =>
          if c2 = gravAcc ∧ c3 = gravAcc then
            match (rest.dropWhile isWordCh) with
            | '\n' :: body =>
              match findTriple body with
              | some (content, rest2) => (⟨content⟩ : String) :: fencedBodiesAux f rest2
              | none => []
            | _ => fencedBodiesAux f cs'
          else fencedBodiesAux f cs'
        | _ => fencedBodiesAux f cs'
      else fencedBodiesAux f cs'

/-- The raw (untrimmed) bodies of all fenced code blocks of `response`. -/
def fencedBodies (response : String) : List String :=
  fencedBodiesAux (response.data.length + 1) response.data

/-- The `$ `-marker tier: lines whose `trimStart` begins with the marker,
mapped to the marker-stripped remainder trimmed, empties dropped. -/
def dollarCommands (response : String) : List String :=
  (((splitCh '\n' response.data).filter
      (fun l => leadsWith ['$', ' '] (jsTrimStartL l))).map
    (fun l => jsTrim ⟨(jsTrimStartL l).drop 2⟩)).filter (fun c => c ≠ "")

/-- Model of `extractCommands` of the renderer: fenced blocks first (trimmed, blanks
dropped); if none survive, fall back to the `$ ` marker scan. -/
def extractCommands (response : String) : List String :=
  let fenced := ((fencedBodies response).map jsTrim).filter (fun c => c ≠ "")
  if fenced ≠ [] then fenced else dollarCommands response

/-- The `ParsedResponse` shape (`AiResponse` in the renderer). -/
structure AiResponse where
  text : String
  commands : List String
deriving DecidableEq, Repr

/-- The body of `parseAiResponse`'s `try` block: `JSON.parse` followed by the
field probes.  `none` models the control flow reaching `catch`: `JSON.parse`
throwing, or the property access `parsed.text` throwing because the parsed
value is `null`. -/
def structuredTier (raw : String) : Option AiResponse :=
  match jsonParse raw with
  | none => none
  | some Json.null => none
  | some j =>
    let text := match jsonGet j "text" with
      | some (Json.str s) => s
      | _ => match jsonGet j "explanation" with
        | some (Json.str s) => s
        | _ => match jsonGet j "response" with
          | some (Json.str s) => s
          | _ => ""
    let cmds := match jsonGet j "commands" with
      | some (Json.arr xs) => xs
      | _ => match jsonGet j "command" with
        | some (Json.arr xs) => xs
        | _ => []
    some { text := text,
           commands := cmds.filterMap (fun x => match x with
             | Json.str s => if jsTrim s ≠ "" then some s else none
             | _ => none) }

/-- Model of `parseAiResponse` of the renderer: structured tier, then the free-text
fallback `{ text: raw, commands: extractCommands(raw) }`. -/
def parseAiResponse (raw : String) : AiResponse :=
  match structuredTier raw with
  | some r => r
  | none => { text := raw, commands := extractCommands raw }

/-- Model of `formatCommandPreview` of the renderer (display only). -/
def formatCommandPreview (cmd : String) : String :=
  let lines := (splitCh '\n' cmd.data).map (fun l => (⟨l⟩ : String))
  if lines.length ≤ 4 then joinSep "\r\n  " lines
  else joinSep "\r\n  "
    (lines.take 3 ++
      ["\x1b[38;5;245m… +" ++ natStr (lines.length - 3) ++ " more lines\x1b[0m\x1b[1;97m"])

/-! ## Conversation ledger (main process, `queryOllama`)

Per-tab `conversationHistory` with `MAX_HISTORY_MESSAGES = 20`:
the composed user message is pushed and the history trimmed before the
request is issued; on a completed stream a non-empty accumulated assistant
response is appended (with no further trim); on transport failure the
trailing user message, if any, is popped. -/

inductive ChatRole where
  | system : ChatRole
  | user : ChatRole
  | assistant : ChatRole
deriving DecidableEq, Repr

structure ChatMessage where
  role : ChatRole
  content : String
deriving DecidableEq, Repr

def MAX_HISTORY_MESSAGES : Nat := 20

/-- The composed outgoing user message: prompt, prefixed by the fenced
terminal-context block when `context` is non-empty. -/
def composeUser (context prompt : String) : String :=
  if context ≠ "" then
    "Terminal context:\n```\n" ++ context ++ "\n```\n\n" ++ prompt
  else prompt

/-- The trim loop `while (history.length > MAX_HISTORY_MESSAGES) history.shift()`. -/
def trimHistory (h : List ChatMessage) : List ChatMessage :=
  h.drop (h.length - MAX_HISTORY_MESSAGES)

/-- The ledger mutation performed when a query is issued: push the composed
user message, then trim to the bound. -/
def queryPush (h : List ChatMessage) (content : String) : List ChatMessage :=
  trimHistory (h ++ [⟨ChatRole.user, content⟩])

/-- The ledger mutation performed on stream completion: append the
accumulated assistant text when non-empty (`if (currentAssistantResponse)`). -/
def completeResponse (h : List ChatMessage) (resp : String) : List ChatMessage :=
  if resp ≠ "" then h ++ [⟨ChatRole.assistant, resp⟩] else h

/-- The ledger mutation performed on transport failure
(`req.on('error', …)`): pop the last message iff it is a user message. -/
def rollbackLastUser (h : List ChatMessage) : List ChatMessage :=
  match h.getLast? with
  | some m => if m.role = ChatRole.user then h.dropLast else h
  | none => h

/-- A ledger together with the one-in-flight-request flag of the session
discipline (the renderer gates a new query on `mode`, so a query is only
issued when no request is pending; each request resolves exactly once, by
completion or failure — `doneSent` guards duplicate completion). -/
structure LedgerSt where
  hist : List ChatMessage
  pending : Bool
deriving DecidableEq, Repr

/-- Reachable ledger states of one session under the request discipline. -/
inductive LedgerReach : LedgerSt → Prop where
  | init : LedgerReach ⟨[], false⟩
  | query (h : List ChatMessage) (c : String) :
      LedgerReach ⟨h, false⟩ → LedgerReach ⟨queryPush h c, true⟩
  | complete (h : List ChatMessage) (r : String) :
      LedgerReach ⟨h, true⟩ → LedgerReach ⟨completeResponse h r, false⟩
  | fail (h : List ChatMessage) :
      LedgerReach ⟨h, true⟩ → LedgerReach ⟨rollbackLastUser h, false⟩

/-- One full successful turn: query with content `"u"`, completion with
assistant text `"a"`. -/
def ledgerTurn (h : List ChatMessage) : List ChatMessage :=
  completeResponse (queryPush h "u") "a"

/-! ## Per-tab inline session state machine (`renderer.ts`)

`TabInstance` keeps exactly the mutable fields of the renderer's per-tab
record that the inline AI engine reads or writes (DOM handles, the xterm
instance and the welcome/ptyBuffer bookkeeping are rendering plumbing,
out of scope; `termCols` stands for the immutable-here `term.cols`).

Handlers are pure: they return the updated tab plus the ordered list of
emitted effects.  `setTimeout` callbacks are reified as `TimerTask`s —
one constructor per anonymous callback in the source — executed by
`runTimer`. -/

inductive InlineState where
  | idle : InlineState
  | input : InlineState
  | streaming : InlineState
  | approval : InlineState
deriving DecidableEq, Repr

inductive QuerySource where
  | inlineSrc : QuerySource
  | panel : QuerySource
deriving DecidableEq, Repr

structure TabInstance where
  inlineState : InlineState
  inlineInputBuffer : String
  inlineResponseBuffer : String
  inlineCommands : List String
  inlineCommandIndex : Nat
  inlineAcceptedCommands : List String
  inlineReviewBusy : Bool
  inlineHistory : List String
  inlineHistoryIndex : Int
  inlineHistoryStash : String
  aiQuerySource : Option QuerySource
  tabCompletionBusy : Bool
  isStreaming : Bool
  panelResponseBuffer : String
  panelSuggestedCommand : String
  termCols : Nat
deriving DecidableEq, Repr

/-- The deferred `setTimeout` callbacks of the approval workflow:
`ptyDelayed` for the two confirm-phase writes (insert: converted text;
run: converted text plus carriage return), `reviewRun` for the 50 ms
execute-and-advance callback of the review phase, `reviewResume` for the
500 ms settle-delay callback that re-shows the review prompt. -/
inductive TimerTask where
  | ptyDelayed (text : String) : TimerTask
  | reviewRun (cmd : String) : TimerTask
  | reviewResume : TimerTask
deriving DecidableEq, Repr

inductive Eff where
  | term (s : String) : Eff
  | pty (s : String) : Eff
  | timeout (ms : Nat) (task : TimerTask) : Eff
  | aiQuery (prompt : String) : Eff
  | fsComplete (part : String) : Eff
deriving DecidableEq, Repr

/-- ANSI style constants of the renderer's `S` table (the ones the inline
engine writes). -/
def ansiReset : String := "\x1b[0m"
def ansiPrompt : String := "\x1b[96m"
def ansiInput : String := "\x1b[38;5;117m"
def ansiDim : String := "\x1b[2;3m"
def ansiResponse : String := "\x1b[36m"
def ansiApproval : String := "\x1b[93m"
def ansiError : String := "\x1b[31m"
def ansiBrand : String := "\x1b[38;5;39m"
def ansiGray : String := "\x1b[38;5;245m"
def ansiSep : String := "\x1b[38;5;39m"
def ansiCmd : String := "\x1b[1;97m"

/-- Model of `inlineSeparatorOpen`. -/
def sepOpenEff (t : TabInstance) : Eff :=
  let sideLen := max 1 ((t.termCols - 9) / 2)
  let rightLen := max 1 (t.termCols - sideLen - 9)
  Eff.term ("\r\n\r\n" ++ ansiSep ++ charRepeat '─' sideLen ++ ansiBrand ++
    " open-os " ++ ansiSep ++ charRepeat '─' rightLen ++ ansiReset ++ "\r\n\r\n")

/-- Model of `inlineSeparatorClose`. -/
def sepCloseEff (t : TabInstance) : Eff :=
  Eff.term ("\r\n" ++ ansiSep ++ charRepeat '─' t.termCols ++ ansiReset ++ "\r\n")

/-- Lookup `tab.inlineHistory[i]` at an in-range index (out-of-range would be
`undefined` in JS; the handlers below only index in range). -/
def histGet (h : List String) (i : Int) : String := h.getD i.toNat ""

/-- Lookup `list[i]` for command lists, same convention. -/
def getStr (l : List String) (i : Nat) : String := l.getD i ""

/-- Model of `resetInlineState`. -/
def resetInlineState (t : TabInstance) : TabInstance :=
  { t with inlineState := InlineState.idle,
           inlineInputBuffer := "",
           inlineResponseBuffer := "",
           inlineCommands := [],
           inlineCommandIndex := 0,
           inlineAcceptedCommands := [],
           inlineReviewBusy := false,
           aiQuerySource := none }

/-- Model of `exitInlineMode`. -/
def exitInlineMode (t : TabInstance) : TabInstance × List Eff :=
  (resetInlineState t,
   [Eff.term (ansiReset ++ "\r\n"), sepCloseEff t, Eff.pty "\r"])

/-- Model of `enterInlineMode`. -/
def enterInlineMode (t : TabInstance) : TabInstance × List Eff :=
  if t.inlineState ≠ InlineState.idle then (t, [])
  else
    ({ t with inlineState := InlineState.input,
              inlineInputBuffer := "",
              inlineResponseBuffer := "",
              inlineCommands := [],
              inlineCommandIndex := 0,
              inlineAcceptedCommands := [],
              inlineHistoryIndex := -1,
              inlineHistoryStash := "" },
     [sepOpenEff t, Eff.term (ansiPrompt ++ "open-os > " ++ ansiInput)])

/-- Model of `inlineReplaceInput`. -/
def inlineReplaceInput (t : TabInstance) (text : String) : TabInstance × List Eff :=
  let eraseLen := t.inlineInputBuffer.length
  ({ t with inlineInputBuffer := text },
   (if eraseLen > 0 then [Eff.term (strRepeat "\x08 \x08" eraseLen)] else []) ++
   (if text ≠ "" then [Eff.term text] else []))

/-- The `'\x1b[A'` (history-previous) branch of `handleInlineTyping`. -/
def histPrev (t : TabInstance) : TabInstance × List Eff :=
  if t.inlineHistory.length = 0 then (t, [])
  else if t.inlineHistoryIndex = -1 then
    let t1 := { t with inlineHistoryStash := t.inlineInputBuffer,
                       inlineHistoryIndex := (t.inlineHistory.length : Int) - 1 }
    inlineReplaceInput t1 (histGet t1.inlineHistory t1.inlineHistoryIndex)
  else if t.inlineHistoryIndex > 0 then
    let t1 := { t with inlineHistoryIndex := t.inlineHistoryIndex - 1 }
    inlineReplaceInput t1 (histGet t1.inlineHistory t1.inlineHistoryIndex)
  else (t, [])

/-- The `'\x1b[B'` (history-next) branch of `handleInlineTyping`. -/
def histNext (t : TabInstance) : TabInstance × List Eff :=
  if t.inlineHistoryIndex = -1 then (t, [])
  else if t.inlineHistoryIndex < (t.inlineHistory.length : Int) - 1 then
    let t1 := { t with inlineHistoryIndex := t.inlineHistoryIndex + 1 }
    inlineReplaceInput t1 (histGet t1.inlineHistory t1.inlineHistoryIndex)
  else
    let t1 := { t with inlineHistoryIndex := -1 }
    inlineReplaceInput t1 t1.inlineHistoryStash

/-- Model of `handleTabCompletion` (synchronous part: guard, regex match on the
trailing token, busy flag, request).  The `prefix`-variable computation of
the source lives in the promise callback's closure and reappears as the
`pfx` argument of `fsCallback`. -/
def handleTabCompletion (t : TabInstance) : TabInstance × List Eff :=
  if t.tabCompletionBusy then (t, [])
  else
    let run := trailingRun t.inlineInputBuffer.data
    if run = [] then (t, [])
    else ({ t with tabCompletionBusy := true }, [Eff.fsComplete ⟨run⟩])

/-- The `fsComplete(...).then` callback: clear the busy flag; if still in
input mode and the match list is non-empty, extend the buffer by the longest
common run shared by all returned names beyond the already-typed final path
component. -/
def shrinkFuel : Nat → List Char → List Char → List Char
  | 0, common, _ => common
  | f + 1, common, m =>
    if common ≠ [] ∧ ¬ leadsWith common m then shrinkFuel f common.dropLast m
    else common

/-- The inner `while` loop of the completion callback: shorten `common` from
the right until it is a leading run of `m`. -/
def shrinkToLead (common m : List Char) : List Char :=
  shrinkFuel (common.length + 1) common m

/-- The longest-common-leading-run loop over the returned match names. -/
def lcpOf : List String → String
  | [] => ""
  | m :: rest => ⟨rest.foldl (fun common mi => shrinkToLead common mi.data) m.data⟩

def fsCallback (t : TabInstance) (pfx : String) (ms : List String) :
    TabInstance × List Eff :=
  let t0 := { t with tabCompletionBusy := false }
  if t0.inlineState ≠ InlineState.input ∨ ms = [] then (t0, [])
  else
    let toAdd : String := ⟨(lcpOf ms).data.drop pfx.length⟩
    if toAdd ≠ "" then
      ({ t0 with inlineInputBuffer := t0.inlineInputBuffer ++ toAdd },
       [Eff.term (ansiInput ++ toAdd)])
    else (t0, [])

/-- Model of `submitInlineQuery` (terminal-context capture is rendering plumbing;
the emitted `aiQuery` effect records the submitted prompt). -/
def submitInlineQuery (t : TabInstance) : TabInstance × List Eff :=
  let p := jsTrim t.inlineInputBuffer
  if p = "" then exitInlineMode t
  else
    let h := t.inlineHistory
    ({ t with inlineHistory := if h.getLast? = some p then h else h ++ [p],
              inlineHistoryIndex := -1,
              inlineHistoryStash := "",
              inlineState := InlineState.streaming,
              aiQuerySource := some QuerySource.inlineSrc,
              inlineResponseBuffer := "" },
     [Eff.term ("\r\n" ++ ansiDim ++ "..." ++ ansiReset), Eff.aiQuery p])

/-- Model of `handleInlineTyping`. -/
def handleInlineTyping (t : TabInstance) (data : String) : TabInstance × List Eff :=
  if data = "\x1b[A" then histPrev t
  else if data = "\x1b[B" then histNext t
  else if data = "\t" then handleTabCompletion t
  else if data = "\r" then
    let r := submitInlineQuery t
    (r.1, Eff.term ansiReset :: r.2)
  else if data = "\x7f" ∨ data = "\x08" then
    if t.inlineInputBuffer.length > 0 then
      ({ t with inlineInputBuffer := strDropLast t.inlineInputBuffer },
       [Eff.term "\x08 \x08"])
    else (t, [])
  else if data = "\x1b" ∨ data = "\x03" then
    let r := exitInlineMode t
    (r.1, Eff.term ansiReset :: r.2)
  else
    match data.data with
    | [c] =>
      if 32 ≤ c.toNat ∧ c.toNat < 65536 then
        ({ t with inlineInputBuffer := t.inlineInputBuffer ++ data }, [Eff.term data])
      else (t, [])
    | _ => (t, [])

/-- Model of `showCommandReview` (display only). -/
def reviewEff (t : TabInstance) : Eff :=
  Eff.term ("\r\n\r\n" ++ ansiGray ++ "Command " ++
    natStr (t.inlineCommandIndex + 1) ++ "/" ++ natStr t.inlineCommands.length ++
    " ─" ++ ansiReset ++ "\r\n  " ++ ansiCmd ++
    formatCommandPreview (getStr t.inlineCommands t.inlineCommandIndex) ++
    ansiReset ++ "\r\n" ++ ansiApproval ++ "  [R]un  [S]kip  [C]ancel" ++ ansiReset)

/-- Model of `showCommandConfirm` (display only). -/
def confirmEff (t : TabInstance) : Eff :=
  Eff.term ("\r\n\r\n" ++ ansiGray ++ "►" ++ ansiReset ++ "\r\n  " ++ ansiCmd ++
    formatCommandPreview (getStr t.inlineAcceptedCommands 0) ++
    ansiReset ++ "\r\n" ++ ansiApproval ++ "  [I]nsert  [R]un  [C]ancel" ++ ansiReset)

/-- Model of `advanceOrExit`. -/
def advanceOrExit (t : TabInstance) : TabInstance × List Eff :=
  let t1 := { t with inlineCommandIndex := t.inlineCommandIndex + 1 }
  if t1.inlineCommandIndex < t1.inlineCommands.length then (t1, [reviewEff t1])
  else exitInlineMode t1

/-- Model of `handleInlineApproval`. -/
def handleInlineApproval (t : TabInstance) (data : String) : TabInstance × List Eff :=
  if t.inlineReviewBusy then (t, [])
  else
    let key := jsToLower data
    if t.inlineCommandIndex < t.inlineCommands.length then
      if key = "r" then
        (t, [Eff.term (ansiReset ++ "\r\n"), sepCloseEff t, Eff.pty "\r",
             Eff.timeout 50 (TimerTask.reviewRun
               (getStr t.inlineCommands t.inlineCommandIndex))])
      else if key = "s" then advanceOrExit t
      else if key = "c" ∨ data = "\x1b" then exitInlineMode t
      else (t, [])
    else
      let cmd := getStr t.inlineAcceptedCommands 0
      if key = "i" then
        (resetInlineState t,
         [Eff.term (ansiReset ++ "\r\n"), sepCloseEff t, Eff.pty "\r",
          Eff.timeout 50 (TimerTask.ptyDelayed (convNl cmd))])
      else if key = "r" then
        (resetInlineState t,
         [Eff.term (ansiReset ++ "\r\n"), sepCloseEff t, Eff.pty "\r",
          Eff.timeout 50 (TimerTask.ptyDelayed (convNl cmd ++ "\r"))])
      else if key = "c" ∨ data = "\x1b" then exitInlineMode t
      else (t, [])

/-- Model of `handleInlineInput` (dispatch on the inline state; the `idle` case is
handled by the `term.onData` wiring, see `tabStep`). -/
def handleInlineInput (t : TabInstance) (data : String) : TabInstance × List Eff :=
  match t.inlineState with
  | InlineState.input => handleInlineTyping t data
  | InlineState.streaming =>
    if data = "\x1b" then
      (resetInlineState t,
       [Eff.term (ansiReset ++ "\r\n" ++ ansiError ++ "[cancelled]" ++ ansiReset ++ "\r\n"),
        sepCloseEff t, Eff.pty "\r"])
    else (t, [])
  | InlineState.approval => handleInlineApproval t data
  | InlineState.idle => (t, [])

/-- Execution of a deferred `setTimeout` callback. -/
def runTimer (t : TabInstance) (task : TimerTask) : TabInstance × List Eff :=
  match task with
  | TimerTask.ptyDelayed s => (t, [Eff.pty s])
  | TimerTask.reviewRun cmd =>
    let t1 := { t with inlineCommandIndex := t.inlineCommandIndex + 1 }
    if t1.inlineCommandIndex < t1.inlineCommands.length then
      ({ t1 with inlineReviewBusy := true },
       [Eff.pty (convNl cmd ++ "\r"), Eff.timeout 500 TimerTask.reviewResume])
    else (resetInlineState t1, [Eff.pty (convNl cmd ++ "\r")])
  | TimerTask.reviewResume =>
    let t1 := { t with inlineReviewBusy := false }
    (t1, [sepOpenEff t1, reviewEff t1])

/-- Model of the `onAiChunk` routing. -/
def onAiChunk (t : TabInstance) (chunk : String) : TabInstance × List Eff :=
  if t.aiQuerySource = some QuerySource.inlineSrc then
    ({ t with inlineResponseBuffer := t.inlineResponseBuffer ++ chunk }, [])
  else if t.aiQuerySource = some QuerySource.panel then
    ({ t with panelResponseBuffer := t.panelResponseBuffer ++ chunk }, [])
  else (t, [])

/-- Model of the `onAiDone` routing. -/
def onAiDone (t : TabInstance) : TabInstance × List Eff :=
  if t.aiQuerySource = some QuerySource.inlineSrc ∧
     t.inlineState = InlineState.streaming then
    let r := parseAiResponse t.inlineResponseBuffer
    let textEffs : List Eff :=
      if r.text ≠ "" then
        [Eff.term ("\r\n" ++ ansiResponse ++ convNlCrlf r.text ++ ansiReset)]
      else []
    if r.commands = [] then
      let ex := exitInlineMode t
      (ex.1, textEffs ++ ex.2)
    else if r.commands.length = 1 then
      let t1 := { t with inlineCommands := r.commands,
                         inlineCommandIndex := 1,
                         inlineAcceptedCommands := r.commands,
                         inlineState := InlineState.approval }
      (t1, textEffs ++ [confirmEff t1])
    else
      let t1 := { t with inlineCommands := r.commands,
                         inlineCommandIndex := 0,
                         inlineAcceptedCommands := [],
                         inlineState := InlineState.approval }
      (t1, textEffs ++ [reviewEff t1])
  else if t.aiQuerySource = some QuerySource.panel then
    let r := parseAiResponse t.panelResponseBuffer
    ({ t with isStreaming := false,
              panelSuggestedCommand :=
                if r.commands ≠ [] then joinSep "\n" r.commands
                else t.panelSuggestedCommand,
              aiQuerySource := none }, [])
  else (t, [])

/-- Model of the `onAiError` routing. -/
def onAiError (t : TabInstance) (error : String) : TabInstance × List Eff :=
  if t.aiQuerySource = some QuerySource.inlineSrc then
    (resetInlineState t,
     [Eff.term ("\r\n" ++ ansiError ++ "[Error] " ++ error ++ ansiReset ++ "\r\n"),
      sepCloseEff t, Eff.pty "\r"])
  else if t.aiQuerySource = some QuerySource.panel then
    ({ t with isStreaming := false, aiQuerySource := none }, [])
  else (t, [])

/-- Model of the `onTermPaste` routing. -/
def onTermPaste (t : TabInstance) (text : String) : TabInstance × List Eff :=
  if t.inlineState = InlineState.input then
    ({ t with inlineInputBuffer := t.inlineInputBuffer ++ text },
     [Eff.term (ansiInput ++ text)])
  else if t.inlineState = InlineState.idle then (t, [Eff.pty text])
  else (t, [])

/-- Model of `sendPanelQuery` (panel DOM reads abstracted into the prompt argument). -/
def sendPanelQuery (t : TabInstance) (promptRaw : String) : TabInstance × List Eff :=
  let p := jsTrim promptRaw
  if p = "" ∨ t.isStreaming then (t, [])
  else
    ({ t with isStreaming := true,
              panelSuggestedCommand := "",
              panelResponseBuffer := "",
              aiQuerySource := some QuerySource.panel },
     [Eff.aiQuery p])

inductive PanelAct where
  | insert : PanelAct
  | run : PanelAct
  | cancel : PanelAct
deriving DecidableEq, Repr

/-- The panel action click handler (uses `panelSuggestedCommand`). -/
def panelActions (t : TabInstance) (a : PanelAct) : TabInstance × List Eff :=
  if t.panelSuggestedCommand = "" then (t, [])
  else
    match a with
    | PanelAct.insert => (t, [Eff.pty (convNl t.panelSuggestedCommand)])
    | PanelAct.run => (t, [Eff.pty (convNl t.panelSuggestedCommand ++ "\r")])
    | PanelAct.cancel => (t, [])

/-! ## The event-driven session system

`sysStep` serialises the renderer's event handlers (the runtime's event
queue provides this serialisation); pending `setTimeout` callbacks are kept
in a task list and may fire in any order after being scheduled. -/

inductive Ev where
  | key (data : String) : Ev
  | toggle (panelOpen : Bool) (hasModel : Bool) : Ev
  | paste (text : String) : Ev
  | panelSend (prompt : String) : Ev
  | panelAct (a : PanelAct) : Ev
  | aiChunk (s : String) : Ev
  | aiDone : Ev
  | aiError (msg : String) : Ev
  | fsResult (pfx : String) (ms : List String) : Ev
  | timerFire (task : TimerTask) : Ev
deriving DecidableEq, Repr

structure SysState where
  tab : TabInstance
  timers : List TimerTask
deriving DecidableEq, Repr

/-- The timer tasks newly scheduled by an effect list. -/
def newTimers (effs : List Eff) : List TimerTask :=
  effs.filterMap (fun e => match e with
    | Eff.timeout _ task => some task
    | _ => none)

/-- The tab-level reaction to one event. -/
def tabStep (t : TabInstance) (e : Ev) : TabInstance × List Eff :=
  match e with
  | Ev.key data =>
    if t.inlineState ≠ InlineState.idle then handleInlineInput t data
    else (t, [Eff.pty data])
  | Ev.toggle panelOpen hasModel =>
    if panelOpen then (t, [])
    else if t.inlineState ≠ InlineState.idle then exitInlineMode t
    else if hasModel then enterInlineMode t
    else (t, [])
  | Ev.paste text => onTermPaste t text
  | Ev.panelSend p => sendPanelQuery t p
  | Ev.panelAct a => panelActions t a
  | Ev.aiChunk s => onAiChunk t s
  | Ev.aiDone => onAiDone t
  | Ev.aiError m => onAiError t m
  | Ev.fsResult pfx ms =>
    if t.tabCompletionBusy then fsCallback t pfx ms else (t, [])
  | Ev.timerFire task => runTimer t task

/-- One system step: a timer event only fires if it is pending (and is then
consumed); every step appends the newly scheduled tasks. -/
def sysStep (s : SysState) (e : Ev) : SysState × List Eff :=
  match e with
  | Ev.timerFire task =>
    if task ∈ s.timers then
      let r := runTimer s.tab task
      (⟨r.1, s.timers.erase task ++ newTimers r.2⟩, r.2)
    else (s, [])
  | _ =>
    let r := tabStep s.tab e
    (⟨r.1, s.timers ++ newTimers r.2⟩, r.2)

/-- A freshly created tab (`createTabInstance`). -/
def initialTab (cols : Nat) : TabInstance :=
  { inlineState := InlineState.idle,
    inlineInputBuffer := "",
    inlineResponseBuffer := "",
    inlineCommands := [],
    inlineCommandIndex := 0,
    inlineAcceptedCommands := [],
    inlineReviewBusy := false,
    inlineHistory := [],
    inlineHistoryIndex := -1,
    inlineHistoryStash := "",
    aiQuerySource := none,
    tabCompletionBusy := false,
    isStreaming := false,
    panelResponseBuffer := "",
    panelSuggestedCommand := "",
    termCols := cols }

/-- Reachable session states: a fresh tab, closed under arbitrary event
sequences. -/
inductive SysReach : SysState → Prop where
  | init (cols : Nat) : SysReach ⟨initialTab cols, []⟩
  | step (s : SysState) (e : Ev) : SysReach s → SysReach (sysStep s e).1

/-- The immediate shell writes of an effect list, in order. -/
def ptyWrites (effs : List Eff) : List String :=
  effs.filterMap (fun e => match e with
    | Eff.pty s => some s
    | _ => none)

/-- The texts of the scheduled plain delayed shell writes of an effect
list, in order. -/
def timerWrites (effs : List Eff) : List String :=
  effs.filterMap (fun e => match e with
    | Eff.timeout _ (TimerTask.ptyDelayed s) => some s
    | _ => none)

/-- A ledger ending in two user messages, reachable by a completed turn whose
accumulated assistant text was empty (then nothing is appended) followed by a
second query. -/
def twoUserLedger : List ChatMessage :=
  queryPush (completeResponse (queryPush [] "a") "") "b"

/-- The ledger ends in two consecutive user messages. -/
def endsWithTwoUsers (l : List ChatMessage) : Bool :=
  (l.getLast?.any (fun m => m.role = ChatRole.user)) &&
  (l.dropLast.getLast?.any (fun m => m.role = ChatRole.user))


/-- The history append of `submitInlineQuery`: push unless it duplicates the
immediately preceding entry. -/
def dedupePush (h : List String) (p : String) : List String :=
  if h.getLast? = some p then h else h ++ [p]

/-- The C10 invariant: whenever a tab is `idle`, its transient inline fields
are cleared and no inline query is attributed to it. -/
def clearedIdle (t : TabInstance) : Prop :=
  t.inlineState = InlineState.idle →
    t.inlineInputBuffer = "" ∧ t.inlineResponseBuffer = "" ∧
    t.inlineCommands = [] ∧ t.inlineCommandIndex = 0 ∧
    t.inlineAcceptedCommands = [] ∧ t.inlineReviewBusy = false ∧
    t.aiQuerySource ≠ some QuerySource.inlineSrc

/-! ## Theorems

Helper lemmas first, then one theorem per claim (with witnesses /
counterexamples). -/

theorem trimHistory_length_le (l : List ChatMessage) :
    (trimHistory l).length ≤ MAX_HISTORY_MESSAGES := by
  simp only [trimHistory, List.length_drop]
  omega

theorem trimHistory_of_le {l : List ChatMessage}
    (h : l.length ≤ MAX_HISTORY_MESSAGES) : trimHistory l = l := by
  simp only [trimHistory]
  have : l.length - MAX_HISTORY_MESSAGES = 0 := by omega
  simp [this]

theorem rollbackLastUser_length_le (l : List ChatMessage) :
    (rollbackLastUser l).length ≤ l.length := by
  unfold rollbackLastUser
  cases l.getLast? with
  | none => simp
  | some m =>
    by_cases hm : m.role = ChatRole.user
    · simp only [if_pos hm]
      have h2 := List.length_dropLast l
      omega
    · simp [hm]

theorem ledgerTurn_reach (n : Nat) (h : List ChatMessage)
    (hr : LedgerReach ⟨h, false⟩) : LedgerReach ⟨ledgerTurn^[n] h, false⟩ := by
  induction n generalizing h with
  | zero => simpa using hr
  | succ k ih =>
    rw [Function.iterate_succ_apply]
    exact ih _ (LedgerReach.complete _ "a" (LedgerReach.query _ "u" hr))

/-- C1, counterexample.  Eleven completed turns are a reachable run after
which the ledger holds `MAX_HISTORY_MESSAGES + 1 = 21` messages: the trim
runs only when a query is issued, so the assistant append of the final
completion pushes the ledger one past the bound. -/
theorem C1_counterexample :
    LedgerReach ⟨ledgerTurn^[11] [], false⟩ ∧
    (ledgerTurn^[11] ([] : List ChatMessage)).length =
      MAX_HISTORY_MESSAGES + 1 := by
  refine ⟨ledgerTurn_reach 11 [] LedgerReach.init, ?_⟩
  decide

/-- C1, amended.  Under the one-request-at-a-time session discipline the
ledger never exceeds `MAX_HISTORY_MESSAGES + 1`, and at every moment a
request is in flight (i.e. immediately after the user push and trim) it is
within `MAX_HISTORY_MESSAGES`; the one-message overflow can exist only
between an assistant append and the next query's trim. -/
theorem C1_amended (s : LedgerSt) (hr : LedgerReach s) :
    s.hist.length ≤ MAX_HISTORY_MESSAGES + 1 ∧
    (s.pending = true → s.hist.length ≤ MAX_HISTORY_MESSAGES) := by
  induction hr with
  | init => simp
  | query h c _ _ =>
    have ht := trimHistory_length_le (h ++ [⟨ChatRole.user, c⟩])
    have hq : (queryPush h c).length ≤ MAX_HISTORY_MESSAGES := ht
    exact ⟨Nat.le_succ_of_le hq, fun _ => hq⟩
  | complete h r _ ih =>
    have hb : h.length ≤ MAX_HISTORY_MESSAGES := ih.2 rfl
    refine ⟨?_, by simp⟩
    show (completeResponse h r).length ≤ MAX_HISTORY_MESSAGES + 1
    unfold completeResponse
    split
    · simp only [List.length_append, List.length_singleton]
      omega
    · omega
  | fail h _ ih =>
    have hb : h.length ≤ MAX_HISTORY_MESSAGES := ih.2 rfl
    have h2 := rollbackLastUser_length_le h
    refine ⟨?_, by simp⟩
    show (rollbackLastUser h).length ≤ MAX_HISTORY_MESSAGES + 1
    omega

/-- C1 amended, witness: the reachable 11-turn state instantiates the
theorem; its ledger indeed has 21 = 20 + 1 entries. -/
theorem C1_amended_witness :
    (⟨ledgerTurn^[11] [], false⟩ : LedgerSt).hist.length ≤
      MAX_HISTORY_MESSAGES + 1 :=
  (C1_amended ⟨ledgerTurn^[11] [], false⟩
    (ledgerTurn_reach 11 [] LedgerReach.init)).1

/-- C2, counterexample.  With the ledger at the bound (20 messages after ten
completed turns — a reachable state), issuing a query drops the oldest entry
during the post-append trim; the failure rollback pops only the trailing
user message, so the resulting ledger (19 messages) is *not* the ledger the
request began with. -/
theorem C2_counterexample :
    LedgerReach ⟨ledgerTurn^[10] [], false⟩ ∧
    rollbackLastUser (queryPush (ledgerTurn^[10] []) "x") ≠
      ledgerTurn^[10] ([] : List ChatMessage) := by
  refine ⟨ledgerTurn_reach 10 [] LedgerReach.init, ?_⟩
  decide

/-- C2, amended.  When the ledger is strictly below the bound before the
query (so the post-append trim drops nothing), a transport failure restores
it exactly; and on the renderer side a failure during an inline query
always shows the `[Error]` message and puts the session in `idle`. -/
theorem C2_amended :
    (∀ (h : List ChatMessage) (c : String),
      h.length < MAX_HISTORY_MESSAGES →
      rollbackLastUser (queryPush h c) = h) ∧
    (∀ (t : TabInstance) (err : String),
      t.aiQuerySource = some QuerySource.inlineSrc →
      (onAiError t err).1.inlineState = InlineState.idle ∧
      Eff.term ("\r\n" ++ ansiError ++ "[Error] " ++ err ++ ansiReset ++ "\r\n")
        ∈ (onAiError t err).2) := by
  constructor
  · intro h c hlt
    have htrim : trimHistory (h ++ [⟨ChatRole.user, c⟩]) =
        h ++ [⟨ChatRole.user, c⟩] := by
      apply trimHistory_of_le
      simp only [List.length_append, List.length_singleton]
      omega
    simp [queryPush, htrim, rollbackLastUser, List.getLast?_concat,
      List.dropLast_concat]
  · intro t err hsrc
    simp [onAiError, hsrc, resetInlineState]

/-- C2 amended, witness: a one-message ledger is restored exactly, and a
concrete inline-streaming tab lands in `idle` with the error shown. -/
theorem C2_amended_witness :
    rollbackLastUser
        (queryPush [⟨ChatRole.assistant, "hi"⟩] "x") =
      [⟨ChatRole.assistant, "hi"⟩] ∧
    (onAiError { initialTab 80 with
        inlineState := InlineState.streaming,
        aiQuerySource := some QuerySource.inlineSrc } "boom").1.inlineState =
      InlineState.idle :=
  ⟨C2_amended.1 [⟨ChatRole.assistant, "hi"⟩] "x" (by decide),
   (C2_amended.2 { initialTab 80 with
        inlineState := InlineState.streaming,
        aiQuerySource := some QuerySource.inlineSrc } "boom" rfl).1⟩

/-- C7, counterexample.  On a ledger ending in two consecutive user messages
— reachable, because a completion with an empty accumulated response leaves
the user message unanswered — `rollbackLastUser` is not idempotent: the
second application removes the second trailing user message. -/
theorem C7_counterexample :
    LedgerReach ⟨twoUserLedger, true⟩ ∧
    rollbackLastUser (rollbackLastUser twoUserLedger) ≠
      rollbackLastUser twoUserLedger := by
  refine ⟨LedgerReach.query _ "b"
    (LedgerReach.complete _ "" (LedgerReach.query _ "a" LedgerReach.init)), ?_⟩
  decide

theorem rollbackLastUser_of_not_user {l : List ChatMessage} {m : ChatMessage}
    (hl : l.getLast? = some m) (hm : m.role ≠ ChatRole.user) :
    rollbackLastUser l = l := by
  unfold rollbackLastUser
  simp [hl, hm]

/-- C7, amended.  `rollbackLastUser` is idempotent on every ledger that does
not end in two consecutive user messages (in particular, calling it when the
last message is not a user message is a no-op, not an error); on a ledger
ending in two user messages the second call removes a second message. -/
theorem C7_amended :
    (∀ l : List ChatMessage, endsWithTwoUsers l = false →
      rollbackLastUser (rollbackLastUser l) = rollbackLastUser l) ∧
    (∀ (l : List ChatMessage) (m : ChatMessage),
      l.getLast? = some m → m.role ≠ ChatRole.user →
      rollbackLastUser l = l) := by
  refine ⟨?_, fun l m hl hm => rollbackLastUser_of_not_user hl hm⟩
  intro l htwo
  cases hlast : l.getLast? with
  | none =>
    have hnil : l = [] := List.getLast?_eq_none_iff.mp hlast
    subst hnil
    rfl
  | some m =>
    by_cases hm : m.role = ChatRole.user
    · have hroll : rollbackLastUser l = l.dropLast := by
        unfold rollbackLastUser
        simp [hlast, hm]
      rw [hroll]
      simp only [endsWithTwoUsers, hlast, Bool.and_eq_false_iff] at htwo
      rcases htwo with h1 | h2
      · simp [Option.any, hm] at h1
      · cases hlast2 : l.dropLast.getLast? with
        | none =>
          have : l.dropLast = [] := List.getLast?_eq_none_iff.mp hlast2
          rw [this]
          rfl
        | some m2 =>
          apply rollbackLastUser_of_not_user hlast2
          rw [hlast2] at h2
          simp [Option.any] at h2
          simpa using h2
    · rw [rollbackLastUser_of_not_user hlast hm,
          rollbackLastUser_of_not_user hlast hm]

/-- C7 amended, witness: idempotence on a ledger ending in an assistant
message, and the no-op behaviour on the same ledger. -/
theorem C7_amended_witness :
    rollbackLastUser (rollbackLastUser
        [⟨ChatRole.user, "a"⟩, ⟨ChatRole.assistant, "b"⟩]) =
      rollbackLastUser [⟨ChatRole.user, "a"⟩, ⟨ChatRole.assistant, "b"⟩] ∧
    rollbackLastUser [⟨ChatRole.user, "a"⟩, ⟨ChatRole.assistant, "b"⟩] =
      [⟨ChatRole.user, "a"⟩, ⟨ChatRole.assistant, "b"⟩] :=
  ⟨C7_amended.1 [⟨ChatRole.user, "a"⟩, ⟨ChatRole.assistant, "b"⟩] (by decide),
   C7_amended.2 [⟨ChatRole.user, "a"⟩, ⟨ChatRole.assistant, "b"⟩]
     ⟨ChatRole.assistant, "b"⟩ (by decide) (by decide)⟩

/-- C3, counterexample.  `"5"` is valid JSON, so the structured tier
succeeds (with no usable fields): the result has empty commands — and no
tier can recover a command from `"5"` — yet the explanation is `""`, not
the original raw text. -/
theorem C3_counterexample :
    parseAiResponse "5" = { text := "", commands := [] } ∧
    extractCommands "5" = [] ∧
    ("" : String) ≠ "5" :=
  ⟨rfl, rfl, by decide⟩

/-- C3, amended.  `parse` is total by construction; whenever the structured
tier fails (raw is not valid JSON, or is JSON `null`) and neither fallback
tier recovers a command, the result is exactly
`{ explanation := raw, commands := [] }`.  (When the structured tier
succeeds, the explanation is the recovered text field, which may differ
from the raw text — the counterexample.) -/
theorem C3_amended (raw : String) (h1 : structuredTier raw = none)
    (h2 : ((fencedBodies raw).map jsTrim).filter (fun c => c ≠ "") = [])
    (h3 : dollarCommands raw = []) :
    parseAiResponse raw = { text := raw, commands := [] } := by
  unfold parseAiResponse extractCommands
  rw [h1]
  simp only []
  rw [h2, h3]
  simp

/-- C3 amended, witness. -/
theorem C3_amended_witness :
    parseAiResponse "hello" = { text := "hello", commands := [] } :=
  C3_amended "hello" rfl rfl rfl

/-- C4, counterexample.  `"```\n\n```"` contains one fenced code block (body
`"\n"`), but because the block's trimmed content is empty the code drops it,
finds no surviving fenced command, and falls through to the `$ ` scan —
returning no commands instead of the block's trimmed content `""`. -/
theorem C4_counterexample :
    fencedBodies "```\n\n```" = ["\n"] ∧
    parseAiResponse "```\n\n```" = { text := "```\n\n```", commands := [] } ∧
    ([] : List String) ≠ (fencedBodies "```\n\n```").map jsTrim :=
  ⟨rfl, rfl, by decide⟩

/-- C4, amended.  When the structured tier fails: if at least one fenced
block has non-blank trimmed content, the commands are exactly the trimmed
block bodies with blank ones dropped (an order-preserving sublist of all
trimmed bodies) and the explanation is the full raw text; otherwise the
commands are the `$ `-marker remainders — each additionally trimmed, blank
remainders dropped — again with explanation the raw text. -/
theorem C4_amended (raw : String) (h1 : structuredTier raw = none) :
    (((fencedBodies raw).map jsTrim).filter (fun c => c ≠ "") ≠ [] →
      parseAiResponse raw =
        { text := raw,
          commands := ((fencedBodies raw).map jsTrim).filter (fun c => c ≠ "") } ∧
      (((fencedBodies raw).map jsTrim).filter (fun c => c ≠ "")).Sublist
        ((fencedBodies raw).map jsTrim)) ∧
    (((fencedBodies raw).map jsTrim).filter (fun c => c ≠ "") = [] →
      parseAiResponse raw = { text := raw, commands := dollarCommands raw }) := by
  constructor
  · intro hne
    refine ⟨?_, List.filter_sublist _⟩
    unfold parseAiResponse extractCommands
    rw [h1]
    simp only []
    rw [if_pos hne]
  · intro he
    unfold parseAiResponse extractCommands
    rw [h1]
    simp only []
    rw [he]
    simp

/-- C4 amended, witness: a fenced response and a marker-line response. -/
theorem C4_amended_witness :
    parseAiResponse "```sh\nls -la\n```" =
      { text := "```sh\nls -la\n```", commands := ["ls -la"] } ∧
    parseAiResponse "Try this:\n$ echo hi\n" =
      { text := "Try this:\n$ echo hi\n", commands := ["echo hi"] } :=
  ⟨((C4_amended "```sh\nls -la\n```" rfl).1 (by decide)).1,
   (C4_amended "Try this:\n$ echo hi\n" rfl).2 rfl⟩

/-- C5, confirmed.  In the confirm phase (approval state past the review
range) with single accepted command `c`: the run key resets the session to
`idle`, immediately writes a bare carriage return to the shell, and
schedules the delayed write of `c` with every internal newline converted to
a carriage return plus a final carriage return; the insert key does the
same but the delayed write withholds the final carriage return.  The last
conjunct records that firing the scheduled task writes exactly its text. -/
theorem C5_confirm_actions (t : TabInstance) (c d : String)
    (_hstate : t.inlineState = InlineState.approval)
    (hbusy : t.inlineReviewBusy = false)
    (hconfirm : t.inlineCommands.length ≤ t.inlineCommandIndex)
    (hacc : t.inlineAcceptedCommands = [c]) :
    (jsToLower d = "r" →
      (handleInlineApproval t d).1.inlineState = InlineState.idle ∧
      ptyWrites (handleInlineApproval t d).2 = ["\r"] ∧
      timerWrites (handleInlineApproval t d).2 = [convNl c ++ "\r"]) ∧
    (jsToLower d = "i" →
      (handleInlineApproval t d).1.inlineState = InlineState.idle ∧
      ptyWrites (handleInlineApproval t d).2 = ["\r"] ∧
      timerWrites (handleInlineApproval t d).2 = [convNl c]) ∧
    (∀ (t' : TabInstance) (s : String),
      runTimer t' (TimerTask.ptyDelayed s) = (t', [Eff.pty s])) := by
  have hidx : ¬ (t.inlineCommandIndex < t.inlineCommands.length) :=
    Nat.not_lt.mpr hconfirm
  refine ⟨fun hk => ?_, fun hk => ?_, fun t' s => rfl⟩
  · have hri : ("r" : String) ≠ "i" := by decide
    simp [handleInlineApproval, hbusy, hidx, hk, hri, getStr, hacc, ptyWrites,
      timerWrites, sepCloseEff, resetInlineState]
  · simp [handleInlineApproval, hbusy, hidx, hk, getStr, hacc, ptyWrites,
      timerWrites, sepCloseEff, resetInlineState]

/-- C5, witness: confirm phase with command `ls -la`; run writes
`ls -la\r` (delayed), insert writes `ls -la` (delayed), both after an
immediate `\r`, both landing in `idle`. -/
theorem C5_confirm_actions_witness :
    ((handleInlineApproval { initialTab 80 with
        inlineState := InlineState.approval,
        inlineCommands := ["ls -la"],
        inlineCommandIndex := 1,
        inlineAcceptedCommands := ["ls -la"] } "r").1.inlineState =
      InlineState.idle ∧
     ptyWrites (handleInlineApproval { initialTab 80 with
        inlineState := InlineState.approval,
        inlineCommands := ["ls -la"],
        inlineCommandIndex := 1,
        inlineAcceptedCommands := ["ls -la"] } "r").2 = ["\r"] ∧
     timerWrites (handleInlineApproval { initialTab 80 with
        inlineState := InlineState.approval,
        inlineCommands := ["ls -la"],
        inlineCommandIndex := 1,
        inlineAcceptedCommands := ["ls -la"] } "r").2 = ["ls -la\r"]) ∧
    timerWrites (handleInlineApproval { initialTab 80 with
        inlineState := InlineState.approval,
        inlineCommands := ["ls -la"],
        inlineCommandIndex := 1,
        inlineAcceptedCommands := ["ls -la"] } "i").2 = ["ls -la"] :=
  ⟨by
    have h := (C5_confirm_actions { initialTab 80 with
        inlineState := InlineState.approval,
        inlineCommands := ["ls -la"],
        inlineCommandIndex := 1,
        inlineAcceptedCommands := ["ls -la"] } "ls -la" "r"
      (by rfl) (by rfl) (by decide) (by rfl)).1 (by decide)
    simpa using h,
   by
    have h := ((C5_confirm_actions { initialTab 80 with
        inlineState := InlineState.approval,
        inlineCommands := ["ls -la"],
        inlineCommandIndex := 1,
        inlineAcceptedCommands := ["ls -la"] } "ls -la" "i"
      (by rfl) (by rfl) (by decide) (by rfl)).2).1 (by decide)
    simpa using h.2.2⟩

/-- C6, confirmed.  In the review phase (two or more pending commands, any
in-range review index), the cancel key (`c`/`C` or escape) returns the
session to `idle` at once, clears the pending command list, writes only a
bare carriage return to the shell, schedules no timer, and writes no
pending command text (every parser-produced command has non-blank trim,
and no such string is among the writes). -/
theorem C6_review_cancel (t : TabInstance) (d : String)
    (_hstate : t.inlineState = InlineState.approval)
    (hbusy : t.inlineReviewBusy = false)
    (hidx : t.inlineCommandIndex < t.inlineCommands.length)
    (_hlen : 2 ≤ t.inlineCommands.length)
    (hkey : jsToLower d = "c" ∨ d = "\x1b") :
    (handleInlineApproval t d).1.inlineState = InlineState.idle ∧
    (handleInlineApproval t d).1.inlineCommands = [] ∧
    ptyWrites (handleInlineApproval t d).2 = ["\r"] ∧
    newTimers (handleInlineApproval t d).2 = [] ∧
    ∀ cmd ∈ t.inlineCommands, jsTrim cmd ≠ "" →
      Eff.pty cmd ∉ (handleInlineApproval t d).2 := by
  have hE : handleInlineApproval t d = exitInlineMode t := by
    rcases hkey with hc | hesc
    · have h1 : ("c" : String) ≠ "r" := by decide
      have h2 : ("c" : String) ≠ "s" := by decide
      simp [handleInlineApproval, hbusy, hidx, hc, h1, h2]
    · subst hesc
      have he1 : jsToLower "\x1b" = "\x1b" := by decide
      have he2 : ("\x1b" : String) ≠ "r" := by decide
      have he3 : ("\x1b" : String) ≠ "s" := by decide
      simp [handleInlineApproval, hbusy, hidx, he1, he2, he3]
  rw [hE]
  refine ⟨rfl, rfl, rfl, rfl, ?_⟩
  intro cmd _ htrim
  simp [exitInlineMode, sepCloseEff]
  rintro rfl
  exact htrim (by decide)

/-- C6, witness: two pending commands, cancel at review index 0. -/
theorem C6_review_cancel_witness :
    (handleInlineApproval { initialTab 80 with
        inlineState := InlineState.approval,
        inlineCommands := ["mkdir foo", "cd foo"],
        inlineCommandIndex := 0 } "c").1.inlineState = InlineState.idle ∧
    ptyWrites (handleInlineApproval { initialTab 80 with
        inlineState := InlineState.approval,
        inlineCommands := ["mkdir foo", "cd foo"],
        inlineCommandIndex := 0 } "c").2 = ["\r"] := by
  have h := C6_review_cancel { initialTab 80 with
      inlineState := InlineState.approval,
      inlineCommands := ["mkdir foo", "cd foo"],
      inlineCommandIndex := 0 } "c"
    (by rfl) (by rfl) (by decide) (by decide) (Or.inl (by decide))
  exact ⟨h.1, h.2.2.1⟩

theorem typing_up (t : TabInstance) : handleInlineTyping t "\x1b[A" = histPrev t := rfl

theorem typing_down (t : TabInstance) : handleInlineTyping t "\x1b[B" = histNext t := rfl

theorem histNext_fixed {s : TabInstance} (h : s.inlineHistoryIndex = -1) :
    (histNext s).1 = s := by
  simp [histNext, h]

theorem iterate_histPrev (t : TabInstance) (hne : t.inlineHistory ≠ [])
    (hidx : t.inlineHistoryIndex = -1) :
    ∀ n, 1 ≤ n →
    ((fun x => (histPrev x).1)^[n] t).inlineHistory = t.inlineHistory ∧
    ((fun x => (histPrev x).1)^[n] t).inlineHistoryStash = t.inlineInputBuffer ∧
    ((fun x => (histPrev x).1)^[n] t).inlineHistoryIndex =
      ((t.inlineHistory.length - min n t.inlineHistory.length : Nat) : Int) ∧
    ((fun x => (histPrev x).1)^[n] t).inlineInputBuffer =
      t.inlineHistory.getD (t.inlineHistory.length - min n t.inlineHistory.length) "" := by
  have hlen : t.inlineHistory.length ≠ 0 := by
    simpa using fun h => hne (List.length_eq_zero.mp h)
  intro n hn
  induction n with
  | zero => omega
  | succ k ih =>
    rcases Nat.eq_or_lt_of_le hn with h1 | h2
    · -- k + 1 = 1, base case
      have hk0 : k = 0 := by omega
      subst hk0
      rw [Function.iterate_one]
      have hc : ¬ (t.inlineHistory.length = 0) := hlen
      have hmin : t.inlineHistory.length - min 1 t.inlineHistory.length =
          t.inlineHistory.length - 1 := by omega
      have hcast : ((t.inlineHistory.length : Int) - 1) =
          ((t.inlineHistory.length - 1 : Nat) : Int) := by omega
      simp [histPrev, hc, hidx, inlineReplaceInput, histGet, hmin, hcast]
    · -- step: k ≥ 1
      have hk1 : 1 ≤ k := by omega
      obtain ⟨ihh, ihs, ihi, ihb⟩ := ih hk1
      rw [Function.iterate_succ_apply']
      set s := (fun x => (histPrev x).1)^[k] t with hs
      by_cases hz : t.inlineHistory.length - min k t.inlineHistory.length = 0
      · -- clamped at the oldest entry: no further change
        have hidxz : s.inlineHistoryIndex = 0 := by rw [ihi, hz]; rfl
        have : (histPrev s).1 = s := by
          simp [histPrev, hidxz, ihh, hlen]
        rw [this]
        have hz' : t.inlineHistory.length - min (k+1) t.inlineHistory.length = 0 := by omega
        refine ⟨ihh, ihs, ?_, ?_⟩
        · rw [ihi, hz, hz']
        · rw [ihb, hz, hz']
      · -- still room to move older
        have hgt : (0 : Int) < s.inlineHistoryIndex := by rw [ihi]; omega
        have hne2 : ¬ (s.inlineHistoryIndex = -1) := by omega
        have hc2 : ¬ (s.inlineHistory.length = 0) := by rw [ihh]; exact hlen
        have harith : s.inlineHistoryIndex - 1 =
            ((t.inlineHistory.length - min (k+1) t.inlineHistory.length : Nat) : Int) := by
          rw [ihi]; omega
        have htn : (s.inlineHistoryIndex - 1).toNat =
            t.inlineHistory.length - min (k+1) t.inlineHistory.length := by
          rw [ihi]; omega
        simp only [histPrev, hc2, hne2, if_false, hgt, if_pos, inlineReplaceInput, histGet]
        refine ⟨ihh, ihs, ?_, ?_⟩
        · simp [harith]
        · simp [ihh, htn]

theorem iterate_histNext :
    ∀ (m : Nat) (s : TabInstance) (k : Nat),
    s.inlineHistoryIndex = (k : Int) →
    k < s.inlineHistory.length →
    s.inlineHistory.length ≤ k + m →
    ((fun x => (histNext x).1)^[m] s).inlineInputBuffer = s.inlineHistoryStash ∧
    ((fun x => (histNext x).1)^[m] s).inlineHistoryIndex = -1 := by
  intro m
  induction m with
  | zero => intro s k hk hklt hm; omega
  | succ m ih =>
    intro s k hk hklt hm
    rw [Function.iterate_succ_apply]
    by_cases hlt : k < s.inlineHistory.length - 1
    · -- move one entry newer and recurse
      have hne : ¬ (s.inlineHistoryIndex = -1) := by omega
      have hc : s.inlineHistoryIndex < (s.inlineHistory.length : Int) - 1 := by
        rw [hk]; omega
      have hstep : (histNext s).1 =
          { s with inlineHistoryIndex := s.inlineHistoryIndex + 1,
                   inlineInputBuffer :=
                     histGet s.inlineHistory (s.inlineHistoryIndex + 1) } := by
        simp [histNext, hne, hc, inlineReplaceInput]
      rw [hstep]
      set s2 : TabInstance :=
        { s with inlineHistoryIndex := s.inlineHistoryIndex + 1,
                 inlineInputBuffer :=
                   histGet s.inlineHistory (s.inlineHistoryIndex + 1) } with hs2
      have a1 : s2.inlineHistoryIndex = ((k + 1 : Nat) : Int) := by
        rw [hs2]
        show s.inlineHistoryIndex + 1 = ((k + 1 : Nat) : Int)
        omega
      have a2 : k + 1 < s2.inlineHistory.length := by
        rw [hs2]
        show k + 1 < s.inlineHistory.length
        omega
      have a3 : s2.inlineHistory.length ≤ (k + 1) + m := by
        rw [hs2]
        show s.inlineHistory.length ≤ (k + 1) + m
        omega
      have h2 := ih s2 (k + 1) a1 a2 a3
      have hst : s2.inlineHistoryStash = s.inlineHistoryStash := by rw [hs2]
      rw [hst] at h2
      exact h2
    · -- at the newest entry: restore the stash, further presses are no-ops
      have hke : k = s.inlineHistory.length - 1 := by omega
      have hne : ¬ (s.inlineHistoryIndex = -1) := by omega
      have hc : ¬ (s.inlineHistoryIndex < (s.inlineHistory.length : Int) - 1) := by
        rw [hk]; omega
      set s2 : TabInstance :=
        { s with inlineHistoryIndex := -1,
                 inlineInputBuffer := s.inlineHistoryStash } with hs2
      have hstep : (histNext s).1 = s2 := by
        rw [hs2]
        simp [histNext, hne, hc, inlineReplaceInput]
      rw [hstep]
      have hfix : (histNext s2).1 = s2 := histNext_fixed (by rw [hs2])
      rw [Function.iterate_fixed hfix, hs2]
      exact ⟨rfl, rfl⟩

/-- C8, confirmed.  From an input-mode session with non-empty prompt history
and any not-currently-navigating buffer, pressing history-previous `n` times
(`n ≥ 1`) and then history-next `n` times restores the input buffer exactly
and ends navigation with the cursor back at the `-1` sentinel. -/
theorem C8_history_roundtrip (t : TabInstance) (n : Nat)
    (_hstate : t.inlineState = InlineState.input)
    (hne : t.inlineHistory ≠ [])
    (hidx : t.inlineHistoryIndex = -1)
    (hn : 1 ≤ n) :
    ((fun x => (handleInlineTyping x "\x1b[B").1)^[n]
        ((fun x => (handleInlineTyping x "\x1b[A").1)^[n] t)).inlineInputBuffer =
      t.inlineInputBuffer ∧
    ((fun x => (handleInlineTyping x "\x1b[B").1)^[n]
        ((fun x => (handleInlineTyping x "\x1b[A").1)^[n] t)).inlineHistoryIndex =
      -1 := by
  have hup : (fun x => (handleInlineTyping x "\x1b[A").1) =
      (fun x => (histPrev x).1) := by
    funext x; rw [typing_up]
  have hdn : (fun x => (handleInlineTyping x "\x1b[B").1) =
      (fun x => (histNext x).1) := by
    funext x; rw [typing_down]
  rw [hup, hdn]
  have hlen : t.inlineHistory.length ≠ 0 := by
    simpa using fun h => hne (List.length_eq_zero.mp h)
  obtain ⟨hh, hs, hi, _⟩ := iterate_histPrev t hne hidx n hn
  set u := (fun x => (histPrev x).1)^[n] t with hu
  have hk : u.inlineHistoryIndex =
      ((t.inlineHistory.length - min n t.inlineHistory.length : Nat) : Int) := hi
  have hklt : t.inlineHistory.length - min n t.inlineHistory.length <
      u.inlineHistory.length := by rw [hh]; omega
  have hm : u.inlineHistory.length ≤
      (t.inlineHistory.length - min n t.inlineHistory.length) + n := by
    rw [hh]; omega
  obtain ⟨hb, hix⟩ := iterate_histNext n u
    (t.inlineHistory.length - min n t.inlineHistory.length) hk hklt hm
  rw [hb, hix, hs]
  exact ⟨rfl, rfl⟩


/-- C8, witness: history `["a","b","c"]`, unsubmitted buffer `"draft"`,
three previous presses (clamping past the oldest) and three next presses. -/
theorem C8_history_roundtrip_witness :
    ((fun x => (handleInlineTyping x "\x1b[B").1)^[3]
        ((fun x => (handleInlineTyping x "\x1b[A").1)^[3]
          { initialTab 80 with
              inlineState := InlineState.input,
              inlineInputBuffer := "draft",
              inlineHistory := ["a", "b", "c"] })).inlineInputBuffer =
      "draft" :=
  (C8_history_roundtrip
    { initialTab 80 with
        inlineState := InlineState.input,
        inlineInputBuffer := "draft",
        inlineHistory := ["a", "b", "c"] } 3
    rfl (by decide) rfl (by decide)).1

theorem hist_exit (t : TabInstance) :
    (exitInlineMode t).1.inlineHistory = t.inlineHistory := rfl

theorem hist_enter (t : TabInstance) :
    (enterInlineMode t).1.inlineHistory = t.inlineHistory := by
  unfold enterInlineMode; split <;> rfl

theorem hist_histPrev (t : TabInstance) :
    (histPrev t).1.inlineHistory = t.inlineHistory := by
  unfold histPrev
  split
  · rfl
  · split
    · simp [inlineReplaceInput]
    · split
      · simp [inlineReplaceInput]
      · rfl

theorem hist_histNext (t : TabInstance) :
    (histNext t).1.inlineHistory = t.inlineHistory := by
  unfold histNext
  split
  · rfl
  · split <;> simp [inlineReplaceInput]

theorem hist_tabComp (t : TabInstance) :
    (handleTabCompletion t).1.inlineHistory = t.inlineHistory := by
  unfold handleTabCompletion
  split
  · rfl
  · simp only []
    split <;> rfl

theorem hist_submit (t : TabInstance) :
    (submitInlineQuery t).1.inlineHistory = t.inlineHistory ∨
    (submitInlineQuery t).1.inlineHistory =
      dedupePush t.inlineHistory (jsTrim t.inlineInputBuffer) := by
  unfold submitInlineQuery dedupePush
  simp only []
  split
  · exact Or.inl rfl
  · exact Or.inr rfl

theorem hist_typing (t : TabInstance) (d : String) :
    (handleInlineTyping t d).1.inlineHistory = t.inlineHistory ∨
    (handleInlineTyping t d).1.inlineHistory =
      dedupePush t.inlineHistory (jsTrim t.inlineInputBuffer) := by
  unfold handleInlineTyping
  split_ifs with h1 h2 h3 h4 h5 h6 h7
  · exact Or.inl (hist_histPrev t)
  · exact Or.inl (hist_histNext t)
  · exact Or.inl (hist_tabComp t)
  · simpa using hist_submit t
  · exact Or.inl rfl
  · exact Or.inl rfl
  · exact Or.inl (hist_exit t)
  · split <;> first | (split <;> exact Or.inl rfl) | exact Or.inl rfl

theorem hist_advance (t : TabInstance) :
    (advanceOrExit t).1.inlineHistory = t.inlineHistory := by
  unfold advanceOrExit
  simp only []
  split
  · rfl
  · exact hist_exit _

theorem hist_approval (t : TabInstance) (d : String) :
    (handleInlineApproval t d).1.inlineHistory = t.inlineHistory := by
  unfold handleInlineApproval
  simp only []
  split_ifs <;> first | rfl | exact hist_advance t

theorem hist_inlineInput (t : TabInstance) (d : String) :
    (handleInlineInput t d).1.inlineHistory = t.inlineHistory ∨
    (handleInlineInput t d).1.inlineHistory =
      dedupePush t.inlineHistory (jsTrim t.inlineInputBuffer) := by
  unfold handleInlineInput
  split
  · exact hist_typing t d
  · split <;> exact Or.inl rfl
  · exact Or.inl (hist_approval t d)
  · exact Or.inl rfl

theorem hist_runTimer (t : TabInstance) (task : TimerTask) :
    (runTimer t task).1.inlineHistory = t.inlineHistory := by
  unfold runTimer
  split
  · rfl
  · simp only []
    split <;> rfl
  · rfl

theorem hist_onAiDone (t : TabInstance) :
    (onAiDone t).1.inlineHistory = t.inlineHistory := by
  unfold onAiDone
  split_ifs <;> simp only [] <;> split_ifs <;> rfl

theorem hist_tabStep (t : TabInstance) (e : Ev) :
    (tabStep t e).1.inlineHistory = t.inlineHistory ∨
    (tabStep t e).1.inlineHistory =
      dedupePush t.inlineHistory (jsTrim t.inlineInputBuffer) := by
  cases e with
  | key d =>
    simp only [tabStep]
    by_cases hs : t.inlineState ≠ InlineState.idle
    · simp only [if_pos hs]
      exact hist_inlineInput t d
    · simp only [if_neg hs]
      exact Or.inl trivial
  | toggle po hm =>
    refine Or.inl ?_
    simp only [tabStep]
    split_ifs <;> first | rfl | exact hist_exit t | exact hist_enter t
  | paste s =>
    refine Or.inl ?_
    simp only [tabStep]
    unfold onTermPaste
    split_ifs <;> rfl
  | panelSend p =>
    refine Or.inl ?_
    simp only [tabStep]
    unfold sendPanelQuery
    simp only []
    split_ifs <;> rfl
  | panelAct a =>
    refine Or.inl ?_
    simp only [tabStep]
    unfold panelActions
    split
    · rfl
    · split <;> rfl
  | aiChunk s =>
    refine Or.inl ?_
    simp only [tabStep]
    unfold onAiChunk
    split_ifs <;> rfl
  | aiDone =>
    refine Or.inl ?_
    simp only [tabStep]
    exact hist_onAiDone t
  | aiError m =>
    refine Or.inl ?_
    simp only [tabStep]
    unfold onAiError
    split_ifs <;> rfl
  | fsResult pfx ms =>
    refine Or.inl ?_
    simp only [tabStep]
    split
    · unfold fsCallback
      simp only []
      split
      · rfl
      · split <;> rfl
    · rfl
  | timerFire task =>
    refine Or.inl ?_
    simp only [tabStep]
    exact hist_runTimer t task

theorem chain_dedupePush {h : List String} {p : String}
    (hc : List.Chain' (· ≠ ·) h) :
    List.Chain' (· ≠ ·) (dedupePush h p) := by
  unfold dedupePush
  split
  · exact hc
  · rename_i hne
    rw [List.chain'_append]
    refine ⟨hc, List.chain'_singleton p, ?_⟩
    intro x hx y hy
    simp at hy
    subst hy
    intro hxp
    subst hxp
    exact hne hx

theorem sys_hist_chain (s : SysState) (e : Ev)
    (hc : List.Chain' (· ≠ ·) s.tab.inlineHistory) :
    List.Chain' (· ≠ ·) (sysStep s e).1.tab.inlineHistory := by
  have key : ∀ t : TabInstance, List.Chain' (· ≠ ·) t.inlineHistory →
      List.Chain' (· ≠ ·) (tabStep t e).1.inlineHistory := by
    intro t ht
    rcases hist_tabStep t e with h | h
    · rw [h]; exact ht
    · rw [h]; exact chain_dedupePush ht
  cases e with
  | timerFire task =>
    simp only [sysStep]
    split
    · simp only []
      have h2 := hist_runTimer s.tab task
      show List.Chain' (· ≠ ·) (runTimer s.tab task).1.inlineHistory
      rw [h2]
      exact hc
    · exact hc
  | key d => exact key s.tab hc
  | toggle a b => exact key s.tab hc
  | paste x => exact key s.tab hc
  | panelSend x => exact key s.tab hc
  | panelAct x => exact key s.tab hc
  | aiChunk x => exact key s.tab hc
  | aiDone => exact key s.tab hc
  | aiError x => exact key s.tab hc
  | fsResult x y => exact key s.tab hc

/-- C9, confirmed.  In every reachable session state the prompt history has
no two identical consecutive entries: the submit handler appends only when
the prompt differs from the immediately preceding entry, and no other
handler touches the history. -/
theorem C9_history_no_consecutive_dups (s : SysState) (hr : SysReach s) :
    List.Chain' (· ≠ ·) s.tab.inlineHistory := by
  induction hr with
  | init cols => simp [initialTab]
  | step s e _ ih => exact sys_hist_chain s e ih

theorem J_reset (t : TabInstance) : clearedIdle (resetInlineState t) := by
  intro _
  simp [resetInlineState]

theorem J_exit (t : TabInstance) : clearedIdle (exitInlineMode t).1 := J_reset t

theorem state_histPrev (t : TabInstance) :
    (histPrev t).1.inlineState = t.inlineState := by
  unfold histPrev
  split
  · rfl
  · split
    · simp [inlineReplaceInput]
    · split
      · simp [inlineReplaceInput]
      · rfl

theorem state_histNext (t : TabInstance) :
    (histNext t).1.inlineState = t.inlineState := by
  unfold histNext
  split
  · rfl
  · split <;> simp [inlineReplaceInput]

theorem state_tabComp (t : TabInstance) :
    (handleTabCompletion t).1.inlineState = t.inlineState := by
  unfold handleTabCompletion
  split
  · rfl
  · simp only []
    split <;> rfl

theorem J_submit (t : TabInstance) : clearedIdle (submitInlineQuery t).1 := by
  unfold submitInlineQuery
  simp only []
  split
  · exact J_exit t
  · intro hidle
    simp at hidle

theorem J_typing (t : TabInstance) (d : String)
    (ht : t.inlineState = InlineState.input) :
    clearedIdle (handleInlineTyping t d).1 := by
  unfold handleInlineTyping
  split_ifs with h1 h2 h3 h4 h5 h6 h7
  · intro hidle
    rw [state_histPrev t, ht] at hidle
    simp at hidle
  · intro hidle
    rw [state_histNext t, ht] at hidle
    simp at hidle
  · intro hidle
    rw [state_tabComp t, ht] at hidle
    simp at hidle
  · simp only []
    exact J_submit t
  · intro hidle
    simp only [] at hidle
    rw [ht] at hidle
    simp at hidle
  · intro hidle
    simp only [] at hidle
    rw [ht] at hidle
    simp at hidle
  · simp only []
    exact J_exit t
  · split
    · split
      · intro hidle
        simp only [] at hidle
        rw [ht] at hidle
        simp at hidle
      · intro hidle
        rw [ht] at hidle
        simp at hidle
    · intro hidle
      rw [ht] at hidle
      simp at hidle

theorem J_advance (t : TabInstance) (ht : t.inlineState = InlineState.approval) :
    clearedIdle (advanceOrExit t).1 := by
  unfold advanceOrExit
  simp only []
  split
  · intro hidle
    simp only [] at hidle
    rw [ht] at hidle
    simp at hidle
  · exact J_exit _

theorem J_approval (t : TabInstance) (d : String)
    (ht : t.inlineState = InlineState.approval) :
    clearedIdle (handleInlineApproval t d).1 := by
  unfold handleInlineApproval
  simp only []
  split_ifs <;>
    first
      | exact J_advance t ht
      | exact J_exit t
      | exact J_reset t
      | (intro hidle; rw [ht] at hidle; simp at hidle)

theorem J_inlineInput (t : TabInstance) (d : String) (hJ : clearedIdle t) :
    clearedIdle (handleInlineInput t d).1 := by
  unfold handleInlineInput
  split
  · rename_i heq
    exact J_typing t d heq
  · rename_i heq
    split
    · exact J_reset t
    · intro hidle
      simp only [] at hidle
      rw [heq] at hidle
      simp at hidle
  · rename_i heq
    exact J_approval t d heq
  · exact hJ

theorem J_runTimer (t : TabInstance) (task : TimerTask) (hJ : clearedIdle t) :
    clearedIdle (runTimer t task).1 := by
  unfold runTimer
  cases task with
  | ptyDelayed s => exact hJ
  | reviewRun cmd =>
    simp only []
    split
    · rename_i hcond
      intro hidle
      have hidle2 : t.inlineState = InlineState.idle := hidle
      have h2 := hJ hidle2
      have hcond2 : t.inlineCommandIndex + 1 < t.inlineCommands.length := hcond
      rw [h2.2.2.1] at hcond2
      simp at hcond2
    · exact J_reset _
  | reviewResume =>
    intro hidle
    have hidle2 : t.inlineState = InlineState.idle := hidle
    have h2 := hJ hidle2
    exact ⟨h2.1, h2.2.1, h2.2.2.1, h2.2.2.2.1, h2.2.2.2.2.1, rfl,
      h2.2.2.2.2.2.2⟩

theorem J_aiChunk (t : TabInstance) (c : String) (hJ : clearedIdle t) :
    clearedIdle (onAiChunk t c).1 := by
  unfold onAiChunk
  split_ifs with h1 h2
  · intro hidle
    have hidle2 : t.inlineState = InlineState.idle := hidle
    exact absurd h1 (hJ hidle2).2.2.2.2.2.2
  · intro hidle
    have hidle2 : t.inlineState = InlineState.idle := hidle
    have h3 := hJ hidle2
    exact ⟨h3.1, h3.2.1, h3.2.2.1, h3.2.2.2.1, h3.2.2.2.2.1, h3.2.2.2.2.2.1,
      h3.2.2.2.2.2.2⟩
  · exact hJ

theorem J_aiDone (t : TabInstance) (hJ : clearedIdle t) :
    clearedIdle (onAiDone t).1 := by
  unfold onAiDone
  split_ifs with h1 h2
  · simp only []
    split_ifs <;>
      first
        | exact J_exit t
        | (intro hidle
           exact absurd (show InlineState.approval = InlineState.idle from hidle)
             (by decide))
  · intro hidle
    have hidle2 : t.inlineState = InlineState.idle := hidle
    have h3 := hJ hidle2
    exact ⟨h3.1, h3.2.1, h3.2.2.1, h3.2.2.2.1, h3.2.2.2.2.1, h3.2.2.2.2.2.1,
      by simp⟩
  · exact hJ

theorem J_aiError (t : TabInstance) (m : String) (hJ : clearedIdle t) :
    clearedIdle (onAiError t m).1 := by
  unfold onAiError
  split_ifs with h1 h2
  · exact J_reset t
  · intro hidle
    have hidle2 : t.inlineState = InlineState.idle := hidle
    have h3 := hJ hidle2
    exact ⟨h3.1, h3.2.1, h3.2.2.1, h3.2.2.2.1, h3.2.2.2.2.1, h3.2.2.2.2.2.1,
      by simp⟩
  · exact hJ

theorem J_paste (t : TabInstance) (x : String) (hJ : clearedIdle t) :
    clearedIdle (onTermPaste t x).1 := by
  unfold onTermPaste
  split_ifs with h1 h2
  · intro hidle
    have hidle2 : t.inlineState = InlineState.idle := hidle
    rw [h1] at hidle2
    simp at hidle2
  · exact hJ
  · exact hJ

theorem J_panelSend (t : TabInstance) (p : String) (hJ : clearedIdle t) :
    clearedIdle (sendPanelQuery t p).1 := by
  unfold sendPanelQuery
  simp only []
  split
  · exact hJ
  · intro hidle
    have hidle2 : t.inlineState = InlineState.idle := hidle
    have h3 := hJ hidle2
    exact ⟨h3.1, h3.2.1, h3.2.2.1, h3.2.2.2.1, h3.2.2.2.2.1, h3.2.2.2.2.2.1,
      by simp⟩

theorem J_panelActions (t : TabInstance) (a : PanelAct) (hJ : clearedIdle t) :
    clearedIdle (panelActions t a).1 := by
  unfold panelActions
  split
  · exact hJ
  · split <;> exact hJ

theorem J_fsCallback (t : TabInstance) (pfx : String) (ms : List String)
    (hJ : clearedIdle t) :
    clearedIdle (fsCallback t pfx ms).1 := by
  unfold fsCallback
  simp only []
  split_ifs with h1 h2
  · intro hidle
    have hidle2 : t.inlineState = InlineState.idle := hidle
    have h3 := hJ hidle2
    exact ⟨h3.1, h3.2.1, h3.2.2.1, h3.2.2.2.1, h3.2.2.2.2.1, h3.2.2.2.2.2.1,
      h3.2.2.2.2.2.2⟩
  · intro hidle
    have hidle2 : t.inlineState = InlineState.idle := hidle
    have hcond2 : ¬ (t.inlineState ≠ InlineState.input ∨ ms = []) := h1
    rw [hidle2] at hcond2
    simp at hcond2
  · intro hidle
    have hidle2 : t.inlineState = InlineState.idle := hidle
    have hcond2 : ¬ (t.inlineState ≠ InlineState.input ∨ ms = []) := h1
    rw [hidle2] at hcond2
    simp at hcond2

theorem J_enter (t : TabInstance) (hJ : clearedIdle t) :
    clearedIdle (enterInlineMode t).1 := by
  unfold enterInlineMode
  split
  · exact hJ
  · intro hidle
    exact absurd (show InlineState.input = InlineState.idle from hidle) (by decide)

theorem J_tabStep (t : TabInstance) (e : Ev) (hJ : clearedIdle t) :
    clearedIdle (tabStep t e).1 := by
  cases e with
  | key d =>
    simp only [tabStep]
    split
    · exact J_inlineInput t d hJ
    · exact hJ
  | toggle po hm =>
    simp only [tabStep]
    split_ifs
    · exact hJ
    · exact J_exit t
    · exact J_enter t hJ
    · exact hJ
  | paste x => exact J_paste t x hJ
  | panelSend p => exact J_panelSend t p hJ
  | panelAct a => exact J_panelActions t a hJ
  | aiChunk c => exact J_aiChunk t c hJ
  | aiDone => exact J_aiDone t hJ
  | aiError m => exact J_aiError t m hJ
  | fsResult pfx ms =>
    simp only [tabStep]
    split
    · exact J_fsCallback t pfx ms hJ
    · exact hJ
  | timerFire task => exact J_runTimer t task hJ

theorem J_sysStep (s : SysState) (e : Ev) (hJ : clearedIdle s.tab) :
    clearedIdle (sysStep s e).1.tab := by
  cases e with
  | timerFire task =>
    simp only [sysStep]
    split
    · exact J_runTimer s.tab task hJ
    · exact hJ
  | key d => exact J_tabStep s.tab (Ev.key d) hJ
  | toggle a b => exact J_tabStep s.tab (Ev.toggle a b) hJ
  | paste x => exact J_tabStep s.tab (Ev.paste x) hJ
  | panelSend x => exact J_tabStep s.tab (Ev.panelSend x) hJ
  | panelAct x => exact J_tabStep s.tab (Ev.panelAct x) hJ
  | aiChunk x => exact J_tabStep s.tab (Ev.aiChunk x) hJ
  | aiDone => exact J_tabStep s.tab Ev.aiDone hJ
  | aiError x => exact J_tabStep s.tab (Ev.aiError x) hJ
  | fsResult x y => exact J_tabStep s.tab (Ev.fsResult x y) hJ

/-- C10, confirmed.  In every reachable session state, whenever the inline
state is `idle` the transient inline fields are cleared: input buffer,
response buffer, command list and accepted list empty, command index 0 and
review-busy flag false.  (The proof carries the auxiliary invariant that an
idle tab is never the attributed source of an inline query, which is what
protects the cleared fields against late stream chunks.) -/
theorem C10_idle_cleared (s : SysState) (hr : SysReach s)
    (hidle : s.tab.inlineState = InlineState.idle) :
    s.tab.inlineInputBuffer = "" ∧ s.tab.inlineResponseBuffer = "" ∧
    s.tab.inlineCommands = [] ∧ s.tab.inlineCommandIndex = 0 ∧
    s.tab.inlineAcceptedCommands = [] ∧ s.tab.inlineReviewBusy = false := by
  have hJ : clearedIdle s.tab := by
    clear hidle
    induction hr with
    | init cols => intro _; simp [initialTab]
    | step s e _ ih => exact J_sysStep s e ih
  obtain ⟨a, b, c, d, e, f, _⟩ := hJ hidle
  exact ⟨a, b, c, d, e, f⟩


/-- C9, witness: entering inline mode, typing `a` and submitting is a
reachable three-event run; its history (`["a"]`) has no consecutive
duplicates. -/
theorem C9_history_witness :
    List.Chain' (· ≠ ·)
      (sysStep (sysStep (sysStep ⟨initialTab 80, []⟩
        (Ev.toggle false true)).1 (Ev.key "a")).1
        (Ev.key "\x0d")).1.tab.inlineHistory :=
  C9_history_no_consecutive_dups _
    (SysReach.step _ _ (SysReach.step _ _ (SysReach.step _ _
      (SysReach.init 80))))

/-- C10, witness: after entering inline mode, typing, submitting, and a
transport failure, the session is back to `idle` with all transient fields
cleared. -/
theorem C10_idle_cleared_witness :
    (sysStep (sysStep (sysStep (sysStep ⟨initialTab 80, []⟩
        (Ev.toggle false true)).1 (Ev.key "a")).1
        (Ev.key "\x0d")).1 (Ev.aiError "boom")).1.tab.inlineInputBuffer = "" ∧
    (sysStep (sysStep (sysStep (sysStep ⟨initialTab 80, []⟩
        (Ev.toggle false true)).1 (Ev.key "a")).1
        (Ev.key "\x0d")).1 (Ev.aiError "boom")).1.tab.inlineCommands = [] := by
  have h := C10_idle_cleared _
    (SysReach.step _ (Ev.aiError "boom")
      (SysReach.step _ (Ev.key "\x0d")
        (SysReach.step _ (Ev.key "a")
          (SysReach.step _ (Ev.toggle false true) (SysReach.init 80)))))
    (by decide)
  exact ⟨h.1, h.2.2.1⟩
